import Mathlib

/-!
Shallow embedding of the viewport-transform and note-collection core of the
limitless-canvas text editor (src/components/Canvas.tsx, src/components/Note.tsx,
src/App.tsx).  Coordinates, scales and offsets are modelled over the rationals
(exact arithmetic); the implementation uses IEEE doubles, and every claim about
coordinate math is understood in exact arithmetic as the spec says.
-/

namespace LimitlessCanvas

/-- A 2D point (screen or world coordinates, both are pairs of numbers). -/
structure Point where
  x : ℚ
  y : ℚ
deriving Repr, DecidableEq

/-- Viewport state `CanvasState` from src/types/note.ts: scale plus screen-space offset. -/
structure CanvasState where
  scale : ℚ
  offsetX : ℚ
  offsetY : ℚ
deriving Repr, DecidableEq

/-- Constant `MIN_SCALE = 0.25` from Canvas.tsx. -/
def MIN_SCALE : ℚ := 1/4

/-- Constant `MAX_SCALE = 3` from Canvas.tsx. -/
def MAX_SCALE : ℚ := 3

/-- Constant `ZOOM_STEP = 0.1` from Canvas.tsx. -/
def ZOOM_STEP : ℚ := 1/10

/-- World-from-screen conversion as computed in `handleDoubleClick` and
`handleAddNote` (Canvas.tsx): `(screen - offset) / scale`, per axis. -/
def toWorld (p : Point) (v : CanvasState) : Point :=
  ⟨(p.x - v.offsetX) / v.scale, (p.y - v.offsetY) / v.scale⟩

/-- Screen-from-world conversion realised by the transform container
(Canvas.tsx: `translate(offsetX, offsetY) scale(scale)` with top-left origin):
`world * scale + offset`, per axis. -/
def toScreen (w : Point) (v : CanvasState) : Point :=
  ⟨w.x * v.scale + v.offsetX, w.y * v.scale + v.offsetY⟩

/-- The clamp used in `handleWheel`: `Math.max(MIN_SCALE, Math.min(MAX_SCALE, s))`. -/
def clampScale (s : ℚ) : ℚ :=
  max MIN_SCALE (min MAX_SCALE s)

/-- The scale-anchored zoom of `handleWheel` (Canvas.tsx lines 84-105), with the
wheel-step delta abstracted as `f` and the mouse position (already relative to
the canvas rect) as `mouse`:
`newScale = clamp(scale + f)`, `newOffset = mouse - (mouse - offset) * (newScale / scale)`. -/
def wheelZoom (v : CanvasState) (f : ℚ) (mouse : Point) : CanvasState :=
  let newScale := clampScale (v.scale + f)
  { scale := newScale
    offsetX := mouse.x - (mouse.x - v.offsetX) * (newScale / v.scale)
    offsetY := mouse.y - (mouse.y - v.offsetY) * (newScale / v.scale) }

/-- Handler `handleWheel` including the sign convention on `e.deltaY`:
`delta = e.deltaY > 0 ? -ZOOM_STEP : ZOOM_STEP`. -/
def handleWheel (v : CanvasState) (deltaY : ℚ) (mouse : Point) : CanvasState :=
  wheelZoom v (if deltaY > 0 then -ZOOM_STEP else ZOOM_STEP) mouse

/-- The `zoomIn` button handler (Canvas.tsx): `scale := min(MAX_SCALE, scale + ZOOM_STEP)`,
offset untouched. -/
def zoomIn (v : CanvasState) : CanvasState :=
  { v with scale := min MAX_SCALE (v.scale + ZOOM_STEP) }

/-- The `zoomOut` button handler (Canvas.tsx): `scale := max(MIN_SCALE, scale - ZOOM_STEP)`,
offset untouched. -/
def zoomOut (v : CanvasState) : CanvasState :=
  { v with scale := max MIN_SCALE (v.scale - ZOOM_STEP) }

/-- One zoom operation of the kinds the claims quantify over. -/
inductive ZoomOp where
  | wheel (deltaY : ℚ) (mouse : Point)
  | zoomInBtn
  | zoomOutBtn
deriving Repr

/-- Apply one zoom operation. -/
def applyZoomOp (v : CanvasState) (op : ZoomOp) : CanvasState :=
  match op with
  | .wheel deltaY mouse => handleWheel v deltaY mouse
  | .zoomInBtn => zoomIn v
  | .zoomOutBtn => zoomOut v

/-- Apply a finite sequence of zoom operations, left to right. -/
def applyZoomOps (v : CanvasState) (ops : List ZoomOp) : CanvasState :=
  ops.foldl applyZoomOp v

/-- The initial viewport state (`useState` initialiser in Canvas.tsx). -/
def initialCanvasState : CanvasState :=
  { scale := 1, offsetX := 0, offsetY := 0 }

/-- The pan session anchors captured in `handleCanvasMouseDown` (Canvas.tsx):
`panStartRef` (screen point of the mouse-down) and `canvasStartRef` (the
viewport offset at session start). -/
structure PanSession where
  panStart : Point
  canvasStart : Point
deriving Repr, DecidableEq

/-- One pointer-move of the pan `handleMouseMove` (Canvas.tsx lines 54-66):
`delta = current - panStart`; `offset := canvasStart + delta`; the `...prev`
spread leaves `scale` untouched. -/
def panMove (session : PanSession) (v : CanvasState) (current : Point) : CanvasState :=
  { v with
    offsetX := session.canvasStart.x + (current.x - session.panStart.x)
    offsetY := session.canvasStart.y + (current.y - session.panStart.y) }

/-- A whole pan session: the successive pointer positions processed in order. -/
def panMoves (session : PanSession) (v : CanvasState) (moves : List Point) : CanvasState :=
  moves.foldl (panMove session) v

/-- The drag session anchors captured in the note `handleMouseDown` (Note.tsx):
`dragStartRef` (screen point) and `noteStartRef` (the note position at start). -/
structure DragSession where
  dragStart : Point
  noteStart : Point
deriving Repr, DecidableEq

/-- One pointer-move of the note-drag `handleMouseMove` (Note.tsx lines 323-334):
`delta = (current - dragStart) / canvasScale`; the new note position passed to
`onUpdate` is `noteStart + delta`, recomputed from the session anchors. -/
def dragMove (session : DragSession) (canvasScale : ℚ) (current : Point) : Point :=
  ⟨session.noteStart.x + (current.x - session.dragStart.x) / canvasScale,
   session.noteStart.y + (current.y - session.dragStart.y) / canvasScale⟩

/-- The note position after a drag session processes `moves` in order, starting
from the position `pos` the note had when the session began.  Each move
overwrites the position with `dragMove` of the current pointer point. -/
def dragPositions (session : DragSession) (canvasScale : ℚ) (pos : Point)
    (moves : List Point) : Point :=
  moves.foldl (fun _ current => dragMove session canvasScale current) pos

/-- One pointer-move of the resize handler `handleResize` (Note.tsx lines
443-450): deltas are screen deltas from the session anchor divided by
`canvasScale`; result is `(max(200, startWidth + dx), max(100, startHeight + dy))`. -/
def handleResize (startWidth startHeight canvasScale screenDX screenDY : ℚ) : ℚ × ℚ :=
  (max 200 (startWidth + screenDX / canvasScale),
   max 100 (startHeight + screenDY / canvasScale))

/-- The `Note` record from src/types/note.ts. -/
structure Note where
  id : String
  x : ℚ
  y : ℚ
  content : String
  width : ℚ
  height : ℚ
  color : String
  createdAt : ℤ
deriving Repr, DecidableEq

/-- A `Partial<Note>` argument to `onUpdate`: each field either absent or
present with a value (TypeScript object-spread semantics). -/
structure NoteUpdate where
  id : Option String
  x : Option ℚ
  y : Option ℚ
  content : Option String
  width : Option ℚ
  height : Option ℚ
  color : Option String
  createdAt : Option ℤ
deriving Repr, DecidableEq

/-- A `Partial<Note>` with no field present. -/
def NoteUpdate.empty : NoteUpdate :=
  ⟨none, none, none, none, none, none, none, none⟩

/-- The object spread `{ ...note, ...updates }` from `handleUpdateNote`
(App.tsx): every field present in `updates` overwrites the field of the note,
absent fields are kept. -/
def spreadUpdate (n : Note) (u : NoteUpdate) : Note :=
  { id := u.id.getD n.id
    x := u.x.getD n.x
    y := u.y.getD n.y
    content := u.content.getD n.content
    width := u.width.getD n.width
    height := u.height.getD n.height
    color := u.color.getD n.color
    createdAt := u.createdAt.getD n.createdAt }

/-- Handler `handleUpdateNote` (App.tsx lines 42-48):
`notes.map(note => note.id === id ? { ...note, ...updates } : note)`. -/
def handleUpdateNote (notes : List Note) (targetId : String) (u : NoteUpdate) :
    List Note :=
  notes.map (fun note => if note.id = targetId then spreadUpdate note u else note)

/-- The `App` state the claims touch: the note list and the selection. -/
structure AppState where
  notes : List Note
  selectedNoteId : Option String
deriving Repr, DecidableEq

/-- Handler `handleDeleteNote` (App.tsx lines 51-57): filter the note out by id, and
clear the selection exactly when the deleted id was the selected one. -/
def handleDeleteNote (s : AppState) (targetId : String) : AppState :=
  { notes := s.notes.filter (fun note => note.id ≠ targetId)
    selectedNoteId :=
      if s.selectedNoteId = some targetId then none else s.selectedNoteId }

/-- Handler `handleAddNote` (App.tsx lines 21-39): build the new note with default size
300x200, empty content, the freshly generated id and the current timestamp
(`generateId()` and `Date.now()` are impure, so the fresh id and the timestamp
are parameters here), append it to the end of the list, and select it. -/
def handleAddNote (s : AppState) (x y : ℚ) (color : String)
    (freshId : String) (now : ℤ) : AppState :=
  let newNote : Note :=
    { id := freshId, x := x, y := y, content := "", width := 300, height := 200
      color := color, createdAt := now }
  { notes := s.notes ++ [newNote], selectedNoteId := some freshId }

/-- A sample note used as concrete input in witnesses and counterexamples. -/
def noteA : Note :=
  { id := "a", x := 0, y := 0, content := "", width := 300, height := 200
    color := "yellow", createdAt := 0 }

/-- A concrete partial update carrying only a new width of 50. -/
def widthFiftyUpdate : NoteUpdate :=
  { NoteUpdate.empty with width := some 50 }

/-- A concrete partial update carrying only a new id. -/
def idChangeUpdate : NoteUpdate :=
  { NoteUpdate.empty with id := some "b" }

/-- A concrete partial update carrying only a new position. -/
def posUpdate : NoteUpdate :=
  { NoteUpdate.empty with x := some 5, y := some 7 }

/-! ## Helper lemmas -/

/-- The clamp never goes below `MIN_SCALE`. -/
theorem clampScale_lower (s : ℚ) : MIN_SCALE ≤ clampScale s :=
  le_max_left _ _

/-- The clamp never goes above `MAX_SCALE`. -/
theorem clampScale_upper (s : ℚ) : clampScale s ≤ MAX_SCALE :=
  max_le (by norm_num [MIN_SCALE, MAX_SCALE]) (min_le_left _ _)

/-- The clamped scale is positive, so divisions by it are genuine. -/
theorem clampScale_pos (s : ℚ) : 0 < clampScale s :=
  lt_of_lt_of_le (by norm_num [MIN_SCALE]) (clampScale_lower s)

/-- A scale within the clamp range is positive. -/
theorem scale_pos_of_min_le (s : ℚ) (hlo : MIN_SCALE ≤ s) : 0 < s :=
  lt_of_lt_of_le (by norm_num [MIN_SCALE]) hlo

/-- The scale component of `wheelZoom` is the clamp of `scale + f`. -/
theorem wheelZoom_scale (v : CanvasState) (f : ℚ) (a : Point) :
    (wheelZoom v f a).scale = clampScale (v.scale + f) := rfl

/-- Each single zoom operation keeps the scale inside `[MIN_SCALE, MAX_SCALE]`. -/
theorem applyZoomOp_scale_bounds (v : CanvasState) (op : ZoomOp)
    (hlo : MIN_SCALE ≤ v.scale) (hhi : v.scale ≤ MAX_SCALE) :
    MIN_SCALE ≤ (applyZoomOp v op).scale ∧ (applyZoomOp v op).scale ≤ MAX_SCALE := by
  cases op with
  | wheel deltaY mouse =>
      exact ⟨clampScale_lower _, clampScale_upper _⟩
  | zoomInBtn =>
      refine ⟨le_min (by norm_num [MIN_SCALE, MAX_SCALE]) ?_, min_le_left _ _⟩
      simp only [ZOOM_STEP]
      linarith
  | zoomOutBtn =>
      refine ⟨le_max_left _ _, max_le (by norm_num [MIN_SCALE, MAX_SCALE]) ?_⟩
      simp only [ZOOM_STEP]
      linarith

/-- A whole sequence of zoom operations keeps the scale inside the range. -/
theorem applyZoomOps_scale_bounds (ops : List ZoomOp) (v : CanvasState)
    (hlo : MIN_SCALE ≤ v.scale) (hhi : v.scale ≤ MAX_SCALE) :
    MIN_SCALE ≤ (applyZoomOps v ops).scale ∧ (applyZoomOps v ops).scale ≤ MAX_SCALE := by
  induction ops generalizing v with
  | nil => exact ⟨hlo, hhi⟩
  | cons op rest ih =>
      have h := applyZoomOp_scale_bounds v op hlo hhi
      exact ih (applyZoomOp v op) h.1 h.2

/-- Clamping from above absorbs across adding a nonnegative step. -/
theorem min_absorb_add (a t c : ℚ) (hc : 0 ≤ c) :
    min a (min a t + c) = min a (t + c) := by
  rcases le_total t a with h | h
  · rw [min_eq_right h]
  · rw [min_eq_left h, min_eq_left (by linarith), min_eq_left (by linarith)]

/-- Closed form for the scale after `n + 1` zoom-in button presses. -/
theorem zoomIn_replicate_scale (n : ℕ) (v : CanvasState) :
    (applyZoomOps v (List.replicate (n + 1) ZoomOp.zoomInBtn)).scale =
      min MAX_SCALE (v.scale + (n + 1) * ZOOM_STEP) := by
  induction n generalizing v with
  | zero =>
      simp [applyZoomOps, applyZoomOp, zoomIn]
  | succ m ih =>
      have step : List.replicate (m + 2) ZoomOp.zoomInBtn =
          ZoomOp.zoomInBtn :: List.replicate (m + 1) ZoomOp.zoomInBtn := rfl
      rw [step]
      show (applyZoomOps (zoomIn v) (List.replicate (m + 1) ZoomOp.zoomInBtn)).scale = _
      rw [ih]
      show min MAX_SCALE (min MAX_SCALE (v.scale + ZOOM_STEP) + (m + 1) * ZOOM_STEP) = _
      rw [min_absorb_add MAX_SCALE (v.scale + ZOOM_STEP) ((m + 1) * ZOOM_STEP)
        (by simp only [ZOOM_STEP]; positivity)]
      congr 1
      push_cast
      ring

/-! ## Claims -/

/-- Claim C1: for every viewport with scale in the clamp range, anchor point
and zoom factor, the wheel zoom computes the clamped new scale and the
anchor-compensated offset, and consequently the world point under the anchor
is unchanged, including when the new scale is clamped. -/
theorem wheelZoom_anchor_preserved (v : CanvasState) (f : ℚ) (a : Point)
    (hlo : MIN_SCALE ≤ v.scale) (hhi : v.scale ≤ MAX_SCALE) :
    (wheelZoom v f a).scale = clampScale (v.scale + f) ∧
    (wheelZoom v f a).offsetX =
      a.x - (a.x - v.offsetX) * (clampScale (v.scale + f) / v.scale) ∧
    (wheelZoom v f a).offsetY =
      a.y - (a.y - v.offsetY) * (clampScale (v.scale + f) / v.scale) ∧
    toWorld a (wheelZoom v f a) = toWorld a v := by
  have hs : v.scale ≠ 0 := ne_of_gt (scale_pos_of_min_le v.scale hlo)
  have hns : clampScale (v.scale + f) ≠ 0 := ne_of_gt (clampScale_pos _)
  refine ⟨rfl, rfl, rfl, ?_⟩
  obtain ⟨ax, ay⟩ := a
  simp only [wheelZoom, toWorld, Point.mk.injEq]
  constructor <;> · field_simp; ring

/-- Witness for C1 at a clamping input: scale 3 with factor 1/10 clamps back
to 3, and the world point under the anchor is still preserved. -/
theorem wheelZoom_anchor_preserved_witness :
    toWorld ⟨10, 20⟩ (wheelZoom ⟨3, 5, 7⟩ (1/10) ⟨10, 20⟩) = toWorld ⟨10, 20⟩ ⟨3, 5, 7⟩ :=
  (wheelZoom_anchor_preserved ⟨3, 5, 7⟩ (1/10) ⟨10, 20⟩
    (by norm_num [MIN_SCALE]) (by norm_num [MAX_SCALE])).2.2.2

/-- Claim C2: for every screen point and viewport with scale in the clamp
range, converting to world coordinates and back is the identity. -/
theorem toScreen_toWorld_inverse (p : Point) (v : CanvasState)
    (hlo : MIN_SCALE ≤ v.scale) (hhi : v.scale ≤ MAX_SCALE) :
    toScreen (toWorld p v) v = p := by
  have hs : v.scale ≠ 0 := ne_of_gt (scale_pos_of_min_le v.scale hlo)
  obtain ⟨px, py⟩ := p
  simp only [toWorld, toScreen, Point.mk.injEq]
  constructor <;> field_simp

/-- Witness for C2 at scale 1/2 and a nonzero offset. -/
theorem toScreen_toWorld_inverse_witness :
    toScreen (toWorld ⟨7, -3⟩ ⟨1/2, 10, 20⟩) ⟨1/2, 10, 20⟩ = ⟨7, -3⟩ :=
  toScreen_toWorld_inverse ⟨7, -3⟩ ⟨1/2, 10, 20⟩
    (by norm_num [MIN_SCALE]) (by norm_num [MAX_SCALE])

/-- Claim C3: starting from scale 1, every finite sequence of zoom operations
keeps the scale in `[MIN_SCALE, MAX_SCALE]`, and 100 successive zoom-in button
presses yield a scale of exactly 3, not 11. -/
theorem zoom_sequence_scale_bounded (ops : List ZoomOp) :
    (MIN_SCALE ≤ (applyZoomOps initialCanvasState ops).scale ∧
      (applyZoomOps initialCanvasState ops).scale ≤ MAX_SCALE) ∧
    (applyZoomOps initialCanvasState (List.replicate 100 ZoomOp.zoomInBtn)).scale = 3 := by
  constructor
  · exact applyZoomOps_scale_bounds ops initialCanvasState
      (by norm_num [initialCanvasState, MIN_SCALE])
      (by norm_num [initialCanvasState, MAX_SCALE])
  · have h := zoomIn_replicate_scale 99 initialCanvasState
    norm_num [initialCanvasState, MAX_SCALE, ZOOM_STEP] at h
    simpa [MAX_SCALE] using h

/-- Claim C4: during a drag session at an in-range scale, a pointer move with
cumulative screen delta `(dx, dy)` from the session anchor sets the note
position to exactly the session start position plus `(dx / s, dy / s)`,
independently of any earlier moves of the session and of the position the note
had meanwhile (absolute recomputation from session start). -/
theorem dragMove_world_delta (session : DragSession) (s dx dy : ℚ)
    (moves : List Point) (pos : Point)
    (hlo : MIN_SCALE ≤ s) (hhi : s ≤ MAX_SCALE) :
    dragPositions session s pos
        (moves ++ [⟨session.dragStart.x + dx, session.dragStart.y + dy⟩]) =
      ⟨session.noteStart.x + dx / s, session.noteStart.y + dy / s⟩ := by
  simp only [dragPositions, List.foldl_append, List.foldl_cons, List.foldl_nil, dragMove]
  congr 1 <;> ring_nf

/-- Witness for C4 realising the example of the spec: at scale 2, a screen
delta of (40, 20) moves the note by exactly (20, 10) world units. -/
theorem dragMove_world_delta_witness :
    dragPositions ⟨⟨100, 200⟩, ⟨1, 2⟩⟩ 2 ⟨1, 2⟩ [⟨140, 220⟩] = ⟨21, 12⟩ := by
  have h := dragMove_world_delta ⟨⟨100, 200⟩, ⟨1, 2⟩⟩ 2 40 20 [] ⟨1, 2⟩
    (by norm_num [MIN_SCALE]) (by norm_num [MAX_SCALE])
  norm_num at h
  exact h

/-- Counterexample to claim C5: the update operation merges arbitrary partial
fields without clamping, so updating the width of a 300-wide note to 50 leaves
a note of width 50 < 200 in the collection. -/
theorem update_min_size_counterexample :
    (handleUpdateNote [noteA] "a" widthFiftyUpdate).map Note.width = [50] ∧
    ¬ (200 : ℚ) ≤ 50 := by
  constructor
  · simp [handleUpdateNote, spreadUpdate, noteA, widthFiftyUpdate, NoteUpdate.empty]
  · norm_num

/-- Amended claim C5: every resize move enforces the minimum size, yielding
width at least 200 and height at least 100, for all anchors, scales and screen
deltas; the generic update operation itself does not clamp. -/
theorem resize_min_size (startW startH s dx dy : ℚ) :
    200 ≤ (handleResize startW startH s dx dy).1 ∧
    100 ≤ (handleResize startW startH s dx dy).2 :=
  ⟨le_max_left _ _, le_max_left _ _⟩

/-- Counterexample to claim C6: the object spread in the update operation lets
a partial containing an id key overwrite the note id, so the attempt is not
ignored: updating note "a" with id "b" yields a note whose id is "b". -/
theorem update_id_immutable_counterexample :
    (handleUpdateNote [noteA] "a" idChangeUpdate).map Note.id = ["b"] ∧
    "b" ≠ "a" := by
  constructor
  · simp [handleUpdateNote, spreadUpdate, noteA, idChangeUpdate, NoteUpdate.empty]
  · decide

/-- Amended claim C6: for every update whose partial does not contain the id or
createdAt keys (as is the case for every caller in the program), all ids and
creation timestamps in the collection are unchanged. -/
theorem update_preserves_id_createdAt (notes : List Note) (targetId : String)
    (u : NoteUpdate) (hid : u.id = none) (hca : u.createdAt = none) :
    (handleUpdateNote notes targetId u).map Note.id = notes.map Note.id ∧
    (handleUpdateNote notes targetId u).map Note.createdAt = notes.map Note.createdAt := by
  constructor <;>
  · rw [handleUpdateNote, List.map_map]
    refine List.map_congr_left ?_
    intro n _
    by_cases hn : n.id = targetId <;> simp [spreadUpdate, hn, hid, hca]

/-- Witness for amended C6: a position-only update of a concrete note keeps
its id and createdAt. -/
theorem update_preserves_id_createdAt_witness :
    (handleUpdateNote [noteA] "a" posUpdate).map Note.id = ["a"] ∧
    (handleUpdateNote [noteA] "a" posUpdate).map Note.createdAt = [0] := by
  have h := update_preserves_id_createdAt [noteA] "a" posUpdate rfl rfl
  simpa [noteA] using h

/-- Claim C7: update and delete with an id not present in the collection leave
the note list completely unmodified (same list, hence same length and order). -/
theorem unknown_id_noop (notes : List Note) (sel : Option String)
    (targetId : String) (u : NoteUpdate)
    (habs : ∀ n ∈ notes, n.id ≠ targetId) :
    handleUpdateNote notes targetId u = notes ∧
    (handleDeleteNote ⟨notes, sel⟩ targetId).notes = notes := by
  constructor
  · rw [handleUpdateNote]
    have h : ∀ n ∈ notes, (if n.id = targetId then spreadUpdate n u else n) = id n := by
      intro n hn
      rw [if_neg (habs n hn)]
      rfl
    rw [List.map_congr_left h, List.map_id]
  · simp only [handleDeleteNote]
    refine List.filter_eq_self.mpr ?_
    intro n hn
    simpa using habs n hn

/-- Witness for C7: updating or deleting the absent id "z" in a one-note
collection leaves it untouched. -/
theorem unknown_id_noop_witness :
    handleUpdateNote [noteA] "z" posUpdate = [noteA] ∧
    (handleDeleteNote ⟨[noteA], none⟩ "z").notes = [noteA] :=
  unknown_id_noop [noteA] none "z" posUpdate (by decide)

/-- Claim C8: the delete operation removes the note by id and, in the same
operation, clears the selection exactly when the deleted id was selected,
leaving the selection unchanged otherwise. -/
theorem delete_selection_behavior (s : AppState) (targetId : String) :
    (handleDeleteNote s targetId).notes = s.notes.filter (fun n => n.id ≠ targetId) ∧
    (s.selectedNoteId = some targetId →
      (handleDeleteNote s targetId).selectedNoteId = none) ∧
    (s.selectedNoteId ≠ some targetId →
      (handleDeleteNote s targetId).selectedNoteId = s.selectedNoteId) := by
  refine ⟨rfl, fun h => ?_, fun h => ?_⟩
  · simp [handleDeleteNote, h]
  · simp [handleDeleteNote, h]

/-- Witness for C8: deleting the selected note "a" clears the selection;
deleting "a" while "b" is selected keeps the selection at "b". -/
theorem delete_selection_behavior_witness :
    (handleDeleteNote ⟨[noteA], some "a"⟩ "a").selectedNoteId = none ∧
    (handleDeleteNote ⟨[noteA], some "b"⟩ "a").selectedNoteId = some "b" :=
  ⟨(delete_selection_behavior ⟨[noteA], some "a"⟩ "a").2.1 rfl,
   (delete_selection_behavior ⟨[noteA], some "b"⟩ "a").2.2 (by decide)⟩

/-- Claim C9: during a pan session, after any sequence of pointer moves ending
at the current point, the offset equals the session start offset plus the
screen delta from the session anchor — an absolute recomputation independent
of the intermediate moves — and the scale is unchanged. -/
theorem pan_absolute_recompute (session : PanSession) (v : CanvasState)
    (moves : List Point) (current : Point) :
    (panMoves session v (moves ++ [current])).offsetX =
      session.canvasStart.x + (current.x - session.panStart.x) ∧
    (panMoves session v (moves ++ [current])).offsetY =
      session.canvasStart.y + (current.y - session.panStart.y) ∧
    (panMoves session v (moves ++ [current])).scale = v.scale := by
  have hscale : ∀ (w : CanvasState) (ms : List Point), (panMoves session w ms).scale = w.scale := by
    intro w ms
    induction ms generalizing w with
    | nil => rfl
    | cons m rest ih => exact ih (panMove session w m)
  refine ⟨?_, ?_, hscale v _⟩ <;>
    simp [panMoves, List.foldl_append, panMove]

/-- Claim C10: the add operation appends a note with default size 300x200,
empty content, the fresh id and the given timestamp to the end of the
collection, and sets the selection to the id of the newly created note. -/
theorem addNote_appends_and_selects (s : AppState) (x y : ℚ)
    (color freshId : String) (now : ℤ) :
    (handleAddNote s x y color freshId now).notes =
      s.notes ++ [{ id := freshId, x := x, y := y, content := "", width := 300
                    height := 200, color := color, createdAt := now }] ∧
    (handleAddNote s x y color freshId now).selectedNoteId = some freshId ∧
    (handleAddNote s x y color freshId now).notes.length = s.notes.length + 1 := by
  refine ⟨rfl, rfl, ?_⟩
  simp [handleAddNote]

end LimitlessCanvas
